import Mathlib

/-!
Verification development for the urban repository (LP hedging monitor).

Modelling conventions:
- Rust f64 values are modelled as exact rationals. The properties under
  study concern comparisons, control flow, and exact arithmetic identities,
  which agree with IEEE semantics on the represented values; NaN and
  infinities are outside the model.
- alloy Address values and U256 raw amounts are modelled as natural
  numbers. The conversion u256_to_f64 models the ruint to-u128 conversion,
  which panics when the value does not fit, as an Option that is none in
  the panic case.
- Effectful Binance client calls (open_sell, close_sell) are modelled by
  the list of order calls the strategy emits during execute; a possible
  client failure is passed in as a boolean, mirroring propagation of the
  Rust question-mark operator.
-/

namespace Urban

/-- Rust f64 round semantics: round half away from zero,
sign x * floor (abs x + 1/2). -/
def rustRound (q : ℚ) : ℤ :=
  if 0 ≤ q then ⌊q + 1/2⌋ else -⌊-q + 1/2⌋

/-- Function round_to_step from lph.rs lines 241-246: rounds value to the
nearest multiple of step; returns value unchanged when step is not
positive. -/
def round_to_step (value step : ℚ) : ℚ :=
  if step ≤ 0 then value
  else (rustRound (value / step) : ℚ) * step

/-- Decimal digit characters of a natural number, most significant first,
modelling the decimal rendering of an unsigned integer. -/
def natDigits (n : ℕ) : List Char :=
  if h : n < 10 then [Char.ofNat (48 + n)]
  else
    have : n / 10 < n := Nat.div_lt_self (by omega) (by norm_num)
    natDigits (n / 10) ++ [Char.ofNat (48 + n % 10)]
termination_by n

/-- Left-pad a digit list with zero characters to the requested width. -/
def padLeftZeros (l : List Char) (width : ℕ) : List Char :=
  List.replicate (width - l.length) '0' ++ l

/-- Round half to even to an integer, the rounding used by Rust fixed
precision float formatting. -/
def roundHalfEven (q : ℚ) : ℤ :=
  if q - ⌊q⌋ < 1/2 then ⌊q⌋
  else if 1/2 < q - ⌊q⌋ then ⌊q⌋ + 1
  else if 2 ∣ ⌊q⌋ then ⌊q⌋ else ⌊q⌋ + 1

/-- Character data of the fixed point decimal rendering of a rational with
the given number of digits after the decimal point. -/
def fmtFixedChars (prec : ℕ) (q : ℚ) : List Char :=
  let sign : List Char := if q < 0 then ['-'] else []
  let scaled : ℕ := (roundHalfEven (|q| * 10 ^ prec)).toNat
  if prec = 0 then sign ++ natDigits scaled
  else
    sign ++ natDigits (scaled / 10 ^ prec) ++
      '.' :: padLeftZeros (natDigits (scaled % 10 ^ prec)) prec

/-- Fixed point decimal formatting of a rational with the given number of
digits after the decimal point, modelling the Rust format specifier with an
explicit precision. -/
def fmtFixed (prec : ℕ) (q : ℚ) : String :=
  ⟨fmtFixedChars prec q⟩

/-- Number of digit characters after the decimal point of a rendered
number: zero when there is no point. -/
def decPlaces (s : String) : ℕ :=
  if s.data.contains '.' then
    (s.data.reverse.takeWhile (fun c => c != '.')).length
  else 0

/-- Exact ceiling of the base ten logarithm of a positive natural number:
the least k such that t is at most ten to the k. -/
def ceil_log10 (t : ℕ) : ℕ :=
  if t ≤ 1 then 0 else (natDigits (t - 1)).length

/-- Decimal precision derived from the rounding step, from format_quantity
in lph.rs lines 249-256. In the source this is computed with f64 log10 and
ceil; here the positive branch is the exact ceiling logarithm. A step of
zero makes the source compute log10 of infinity, whose ceiling converts to
the saturated u32 maximum; a negative step makes it compute log10 of a
negative number, giving NaN, and NaN.max(0.0) is zero. -/
def quantity_precision (step : ℚ) : ℕ :=
  if 1 ≤ step then 0
  else if step = 0 then 4294967295
  else if step < 0 then 0
  else ceil_log10 ⌈1 / step⌉.toNat

/-- Function format_quantity from lph.rs lines 249-256: formats a quantity
with decimal places derived from the step. -/
def format_quantity (quantity step : ℚ) : String :=
  fmtFixed (quantity_precision step) quantity

/-- Function u256_to_f64 from lph.rs lines 258-272. The source first
converts the U256 to u128 with the ruint method to, which panics when the
value exceeds the u128 range (the adjacent comment claims truncation, but
the method panics); the panic is modelled as none. Then it divides by ten
to the decimals, splitting into whole and fractional part. -/
def u256_to_f64 (value : ℕ) (decimals : ℕ) : Option ℚ :=
  if value < 2 ^ 128 then
    let divisor : ℕ := 10 ^ decimals
    let whole_part : ℕ := value / divisor
    let fractional_part : ℕ := value % divisor
    some ((whole_part : ℚ) + (fractional_part : ℚ) / (divisor : ℚ))
  else none

/-- Ethereum address, modelled as a natural number. -/
abbrev Address := ℕ

/-- Uniswap V3 position record, from PositionData in
clients/uniswapv3/src/position_manager.rs. Raw amounts are U256 values
modelled as naturals. -/
structure PositionData where
  token_id : ℕ
  token0 : Address
  token1 : Address
  liquidity : ℕ
  withdrawable_amount0 : ℕ
  withdrawable_amount1 : ℕ
  collectable_amount0 : ℕ
  collectable_amount1 : ℕ
deriving DecidableEq, Repr

/-- Binance futures position record, from Position in
clients/binance/src/types.rs; only the fields the strategy reads are
modelled. The numeric fields arrive as strings from the venue. -/
structure Position where
  symbol : String
  position_amt : String
  mark_price : String
  unrealized_pnl : String
  update_time : ℤ
deriving DecidableEq, Repr

/-- Order side, from Side in clients/binance/src/types.rs. -/
inductive Side where
  | buy
  | sell
deriving DecidableEq, Repr

/-- Position side, from PositionSide in clients/binance/src/types.rs. -/
inductive PositionSide where
  | both
  | long
  | short
deriving DecidableEq, Repr

/-- Order type, from OrderType in clients/binance/src/types.rs. -/
inductive OrderType where
  | limit
  | market
deriving DecidableEq, Repr

/-- Time in force, from TimeInForce in clients/binance/src/types.rs. -/
inductive TimeInForce where
  | gtc
deriving DecidableEq, Repr

/-- Order request parameters, from PlaceOrderRequest in
clients/binance/src/types.rs. -/
structure PlaceOrderRequest where
  side : Side
  position_side : PositionSide
  order_type : OrderType
  quantity : String
  price : Option String
  reduce_only : Bool
  time_in_force : TimeInForce
deriving DecidableEq, Repr

/-- Order book, from Orderbook in clients/binance/src/types.rs; each level
is a price and quantity pair of strings. -/
structure Orderbook where
  bids : List (String × String)
  asks : List (String × String)
deriving DecidableEq, Repr

/-- Request built by BinancePerpsClient.open_sell in
clients/binance/src/perps.rs lines 122-152: a limit sell at the best ask to
open a short position; fails when the ask side of the book is empty. -/
def open_sell_request (orderbook : Orderbook) (amount : String) :
    Except String PlaceOrderRequest :=
  match orderbook.asks.head? with
  | none => Except.error "orderbook asks empty"
  | some ask =>
      Except.ok
        { side := Side.sell
          position_side := PositionSide.short
          order_type := OrderType.limit
          quantity := amount
          price := some ask.1
          reduce_only := false
          time_in_force := TimeInForce.gtc }

/-- Request built by BinancePerpsClient.close_sell in
clients/binance/src/perps.rs lines 155-185: a limit buy at the best bid,
reduce only, to close a short position; fails when the bid side of the book
is empty. -/
def close_sell_request (orderbook : Orderbook) (amount : String) :
    Except String PlaceOrderRequest :=
  match orderbook.bids.head? with
  | none => Except.error "orderbook bids empty"
  | some bid =>
      Except.ok
        { side := Side.buy
          position_side := PositionSide.short
          order_type := OrderType.limit
          quantity := amount
          price := some bid.1
          reduce_only := true
          time_in_force := TimeInForce.gtc }

/-- The LPHStrategy state, from lph.rs lines 20-37; the two client handles
are collaborators whose effects are modelled at the call sites. -/
structure LPHStrategy where
  owner : Address
  symbol : String
  base_token_address : Address
  usdt_token_address : Address
  base_delta_ratio_threshold : ℚ
  base_delta_threshold : ℚ
deriving DecidableEq, Repr

/-- One order call emitted by execute towards the Binance client. -/
inductive OrderCall where
  | openSell (symbol : String) (quantity : String)
  | closeSell (symbol : String) (quantity : String)
deriving DecidableEq, Repr

/-- Outcome of execute: Ok, or an error propagated from a client call. -/
inductive ExecOutcome where
  | ok
  | clientErr
deriving DecidableEq, Repr

/-- Method LPHStrategy.execute from lph.rs lines 76-102, modelled as a pure
transition: it returns the strategy state after the call, the list of
client order calls it performed, and the outcome. The booleans say whether
the respective client call would fail, mirroring question-mark
propagation. -/
def execute (s : LPHStrategy) (base_delta_ratio base_delta : ℚ)
    (openSellFails closeSellFails : Bool) :
    LPHStrategy × List OrderCall × ExecOutcome :=
  let n := s.base_delta_ratio_threshold
  let m := s.base_delta_threshold
  if base_delta_ratio ≤ n ∨ |base_delta| ≤ m then (s, [], ExecOutcome.ok)
  else if base_delta = 0 then (s, [], ExecOutcome.ok)
  else
    let quantity := round_to_step |base_delta| m
    let quantity_str := format_quantity quantity m
    if 0 < base_delta then
      (s, [OrderCall.openSell s.symbol quantity_str],
        if openSellFails then ExecOutcome.clientErr else ExecOutcome.ok)
    else
      (s, [OrderCall.closeSell s.symbol quantity_str],
        if closeSellFails then ExecOutcome.clientErr else ExecOutcome.ok)

/-- Monitoring snapshot, from MonitoringSnapshot in
strategy/lph/src/types.rs. -/
structure MonitoringSnapshot where
  block_number : ℕ
  symbol : String
  amm_base_amount : ℚ
  amm_usdt_amount : ℚ
  amm_collectable_base : ℚ
  amm_collectable_usdt : ℚ
  amm_collectable_value_usdt : ℚ
  futures_position : ℚ
  unrealized_pnl : ℚ
  futures_timestamp : ℤ
  base_price_usdt : ℚ
  base_delta : ℚ
  base_delta_ratio : ℚ
  amm_total_value_usdt : ℚ
  total_value_usdt : ℚ
deriving DecidableEq, Repr

/-- The epsilon floor used for the ratio denominator, lph.rs line 205. -/
def EPSILON : ℚ := 1 / 100000000

/-- The denominator of the normalized exposure, lph.rs lines 206-209. -/
def base_reference_of (amm_base_amount futures_position : ℚ) : ℚ :=
  max (max |amm_base_amount| |futures_position|) EPSILON

/-- The normalized exposure, lph.rs lines 202-211. -/
def base_delta_ratio_of (amm_base_amount futures_position : ℚ) : ℚ :=
  (amm_base_amount + futures_position) /
    base_reference_of amm_base_amount futures_position

/-- The position selection in LPHStrategy.status, lph.rs lines 112-128: the
first stored position whose token pair equals the configured base and usdt
addresses in either order. The positions table is a BTreeMap keyed by the
token id; its value iteration order is modelled by the list order. -/
def find_position (positions : List PositionData) (base usdt : Address) :
    Option PositionData :=
  positions.find? fun pos =>
    (pos.token0 == base && pos.token1 == usdt) ||
      (pos.token0 == usdt && pos.token1 == base)

/-- Number of decimals assumed for both Uniswap tokens, lph.rs line 158. -/
def UNISWAP_TOKEN_DECIMALS : ℕ := 18

/-- Steps 2 to 4 of LPHStrategy.status, lph.rs lines 167-237: locate the
CEX position for the configured symbol, parse its string encoded numeric
fields, compute the monitoring metrics and assemble the snapshot. The four
rational arguments are the already converted AMM amounts. -/
def status_cex (s : LPHStrategy) (block_number : ℕ)
    (cex_positions : List Position) (parse : String → Option ℚ)
    (amm_base_amount amm_usdt_amount amm_collectable_base
      amm_collectable_usdt : ℚ) :
    Except String MonitoringSnapshot :=
  match cex_positions.find? (fun p => p.symbol == s.symbol) with
  | none => Except.error "No matching Binance position found"
  | some binance_position =>
    match parse binance_position.position_amt with
    | none => Except.error "Failed to parse position_amt"
    | some futures_position =>
    match parse binance_position.unrealized_pnl with
    | none => Except.error "Failed to parse unrealized_pnl"
    | some unrealized_pnl =>
    match parse binance_position.mark_price with
    | none => Except.error "Failed to parse mark_price"
    | some base_price_usdt =>
      let futures_timestamp := binance_position.update_time
      let base_delta := amm_base_amount + futures_position
      let base_delta_ratio := base_delta_ratio_of amm_base_amount futures_position
      let amm_base_value_usdt := amm_base_amount * base_price_usdt
      let amm_total_value_usdt := amm_base_value_usdt + amm_usdt_amount
      let amm_collectable_value_usdt :=
        amm_collectable_base * base_price_usdt + amm_collectable_usdt
      let total_value_usdt := amm_total_value_usdt + unrealized_pnl
      Except.ok
        { block_number := block_number
          symbol := s.symbol
          amm_base_amount := amm_base_amount
          amm_usdt_amount := amm_usdt_amount
          amm_collectable_base := amm_collectable_base
          amm_collectable_usdt := amm_collectable_usdt
          amm_collectable_value_usdt := amm_collectable_value_usdt
          futures_position := futures_position
          unrealized_pnl := unrealized_pnl
          futures_timestamp := futures_timestamp
          base_price_usdt := base_price_usdt
          base_delta := base_delta
          base_delta_ratio := base_delta_ratio
          amm_total_value_usdt := amm_total_value_usdt
          total_value_usdt := total_value_usdt }

/-- The conversion stage of LPHStrategy.status, lph.rs lines 157-162: the
four raw amounts (already arranged as base and usdt withdrawable and
collectable) are converted with u256_to_f64; a conversion panic aborts the
whole computation, modelled as none. -/
def status_amm (s : LPHStrategy) (block_number : ℕ)
    (cex_positions : List Position) (parse : String → Option ℚ)
    (w_base w_usdt c_base c_usdt : ℕ) :
    Option (Except String MonitoringSnapshot) :=
  match u256_to_f64 w_base UNISWAP_TOKEN_DECIMALS,
      u256_to_f64 w_usdt UNISWAP_TOKEN_DECIMALS,
      u256_to_f64 c_base UNISWAP_TOKEN_DECIMALS,
      u256_to_f64 c_usdt UNISWAP_TOKEN_DECIMALS with
  | some amm_base_amount, some amm_usdt_amount,
      some amm_collectable_base, some amm_collectable_usdt =>
    some (status_cex s block_number cex_positions parse amm_base_amount
      amm_usdt_amount amm_collectable_base amm_collectable_usdt)
  | _, _, _, _ => none

/-- The pure computation of LPHStrategy.status, lph.rs lines 108-237, after
the collaborator reads: the stored AMM positions, the block number, the
list returned by get_position, and the Rust string to f64 parser are
inputs. The token order destructuring of lph.rs lines 130-155 selects which
raw amount is base and which is usdt. The result is none when u256_to_f64
panics, some of an error when the method returns an error, and some of ok
with the snapshot otherwise. -/
def status_pure (s : LPHStrategy) (positions : List PositionData)
    (block_number : ℕ) (cex_positions : List Position)
    (parse : String → Option ℚ) :
    Option (Except String MonitoringSnapshot) :=
  match find_position positions s.base_token_address s.usdt_token_address with
  | none => some (Except.error "No matching Uniswap position found")
  | some position_data =>
    if position_data.token0 == s.base_token_address then
      status_amm s block_number cex_positions parse
        position_data.withdrawable_amount0 position_data.withdrawable_amount1
        position_data.collectable_amount0 position_data.collectable_amount1
    else
      status_amm s block_number cex_positions parse
        position_data.withdrawable_amount1 position_data.withdrawable_amount0
        position_data.collectable_amount1 position_data.collectable_amount0

/-- Method MonitoringSnapshot.to_message from strategy/lph/src/types.rs
lines 44-65: a four line report joined by newlines; amounts use four
decimal places and the ratio uses two. -/
def to_message (s : MonitoringSnapshot) (symbol : String) : String :=
  let base_usd := s.amm_base_amount * s.base_price_usdt
  let line1 :=
    "当前base token为 " ++ fmtFixed 4 s.amm_base_amount ++ " " ++ symbol ++
      "(" ++ fmtFixed 4 base_usd ++ " USD)"
  let line2 :=
    "当前base token对冲差异比为 " ++ fmtFixed 2 (s.base_delta_ratio * 100) ++ "%"
  let line3 := "目前系统总资产为：" ++ fmtFixed 4 s.total_value_usdt
  let collectable_base_usd := s.amm_collectable_base * s.base_price_usdt
  let line4 :=
    "收益 " ++ fmtFixed 4 s.amm_collectable_value_usdt ++ " = " ++
      fmtFixed 4 s.amm_collectable_base ++ " " ++ symbol ++ " (" ++
      fmtFixed 4 collectable_base_usd ++ " USD) + " ++
      fmtFixed 4 s.amm_collectable_usdt ++ " USD"
  String.intercalate "\n" [line1, line2, line3, line4]

/-- A substring occurrence, stated on the character data of strings. -/
def occursIn (sub s : String) : Prop :=
  ∃ a b : List Char, s.data = a ++ sub.data ++ b

theorem digitChar_ne (d : ℕ) (hd : d < 10) :
    Char.ofNat (48 + d) ≠ '.' ∧ Char.ofNat (48 + d) ≠ '\n' := by
  interval_cases d <;> exact ⟨by decide, by decide⟩

theorem natDigits_mem (n : ℕ) : ∀ c ∈ natDigits n, c ≠ '.' ∧ c ≠ '\n' := by
  induction n using Nat.strong_induction_on with
  | _ n ih =>
    intro c hc
    rw [natDigits] at hc
    by_cases h : n < 10
    · simp only [dif_pos h, List.mem_singleton] at hc
      subst hc
      exact digitChar_ne n h
    · simp only [dif_neg h, List.mem_append, List.mem_singleton] at hc
      rcases hc with hc | hc
      · exact ih (n / 10) (Nat.div_lt_self (by omega) (by norm_num)) c hc
      · subst hc
        exact digitChar_ne (n % 10) (Nat.mod_lt _ (by norm_num))

theorem natDigits_length_pos (n : ℕ) : 0 < (natDigits n).length := by
  rw [natDigits]
  by_cases h : n < 10 <;> simp [h]

theorem natDigits_lt (n : ℕ) : n < 10 ^ (natDigits n).length := by
  induction n using Nat.strong_induction_on with
  | _ n ih =>
    rw [natDigits]
    by_cases h : n < 10
    · simp only [dif_pos h, List.length_singleton, pow_one]
      exact h
    · have hrec := ih (n / 10) (Nat.div_lt_self (by omega) (by norm_num))
      simp only [dif_neg h, List.length_append, List.length_singleton]
      have hmod : n % 10 < 10 := Nat.mod_lt _ (by norm_num)
      have hdiv : n = 10 * (n / 10) + n % 10 := (Nat.div_add_mod n 10).symm ▸ by omega
      have hpow : 10 ^ ((natDigits (n / 10)).length + 1) =
          10 * 10 ^ (natDigits (n / 10)).length := by ring
      omega

theorem natDigits_ge (n : ℕ) (h : 1 ≤ n) :
    10 ^ ((natDigits n).length - 1) ≤ n := by
  induction n using Nat.strong_induction_on with
  | _ n ih =>
    rw [natDigits]
    by_cases hlt : n < 10
    · simpa [hlt] using h
    · have h1 : 1 ≤ n / 10 := by
        have := Nat.div_le_div_right (c := 10) (by omega : 10 ≤ n)
        simpa using this
      have hrec := ih (n / 10) (Nat.div_lt_self (by omega) (by norm_num)) h1
      simp only [dif_neg hlt, List.length_append, List.length_singleton]
      have hL := natDigits_length_pos (n / 10)
      have hs : (natDigits (n / 10)).length + 1 - 1 =
          ((natDigits (n / 10)).length - 1) + 1 := by omega
      rw [hs, pow_succ]
      have : 10 ^ ((natDigits (n / 10)).length - 1) * 10 ≤ (n / 10) * 10 :=
        Nat.mul_le_mul_right _ hrec
      have hdm : (n / 10) * 10 ≤ n := by
        have := Nat.div_add_mod n 10
        omega
      omega

theorem natDigits_length_le (n p : ℕ) (hp : 1 ≤ p) (h : n < 10 ^ p) :
    (natDigits n).length ≤ p := by
  rcases Nat.eq_zero_or_pos n with h0 | h0
  · subst h0
    rw [natDigits]
    simpa using hp
  · by_contra hc
    have h1 : p ≤ (natDigits n).length - 1 := by omega
    have h2 : 10 ^ p ≤ 10 ^ ((natDigits n).length - 1) :=
      Nat.pow_le_pow_right (by norm_num) h1
    have h3 := natDigits_ge n h0
    omega

theorem takeWhile_until_dot (l₁ l₂ : List Char) (h : ∀ c ∈ l₁, c ≠ '.') :
    (l₁ ++ '.' :: l₂).takeWhile (fun c => c != '.') = l₁ := by
  induction l₁ with
  | nil => simp [List.takeWhile_cons]
  | cons a t ih =>
    have ha : a ≠ '.' := h a (by simp)
    simp only [List.cons_append, List.takeWhile_cons]
    have : (a != '.') = true := bne_iff_ne.mpr ha
    rw [this]
    simp only [if_true]
    rw [ih fun c hc => h c (by simp [hc])]

theorem padLeftZeros_length (l : List Char) (w : ℕ) (h : l.length ≤ w) :
    (padLeftZeros l w).length = w := by
  simp [padLeftZeros]
  omega

theorem padLeftZeros_mem (l : List Char) (w : ℕ)
    (h : ∀ c ∈ l, c ≠ '.' ∧ c ≠ '\n') :
    ∀ c ∈ padLeftZeros l w, c ≠ '.' ∧ c ≠ '\n' := by
  intro c hc
  simp only [padLeftZeros, List.mem_append, List.mem_replicate] at hc
  rcases hc with hc | hc
  · rw [hc.2]
    exact ⟨by decide, by decide⟩
  · exact h c hc

theorem contains_dot_eq_false (l : List Char) (h : ∀ c ∈ l, c ≠ '.') :
    l.contains '.' = false := by
  rw [Bool.eq_false_iff]
  intro hc
  rw [List.contains_iff_exists_mem_beq] at hc
  obtain ⟨x, hx, hbeq⟩ := hc
  exact h x hx (beq_iff_eq.mp hbeq).symm

theorem fmtFixed_sign_mem (q : ℚ) :
    ∀ c ∈ (if q < 0 then ['-'] else ([] : List Char)), c ≠ '.' ∧ c ≠ '\n' := by
  intro c hc
  by_cases hq : q < 0 <;> simp [hq] at hc
  rw [hc]
  exact ⟨by decide, by decide⟩

theorem fmtFixedChars_mem (p : ℕ) (q : ℚ) :
    ∀ c ∈ fmtFixedChars p q, c = '.' ∨ (c ≠ '.' ∧ c ≠ '\n') := by
  intro c hc
  simp only [fmtFixedChars] at hc
  by_cases hp : p = 0
  · rw [if_pos hp] at hc
    rcases List.mem_append.mp hc with hc | hc
    · exact Or.inr (fmtFixed_sign_mem q c hc)
    · exact Or.inr (natDigits_mem _ c hc)
  · rw [if_neg hp] at hc
    rcases List.mem_append.mp hc with hc | hc
    · rcases List.mem_append.mp hc with hc | hc
      · exact Or.inr (fmtFixed_sign_mem q c hc)
      · exact Or.inr (natDigits_mem _ c hc)
    · rcases List.mem_cons.mp hc with hc | hc
      · exact Or.inl hc
      · exact Or.inr (padLeftZeros_mem _ _ (natDigits_mem _) c hc)

theorem newline_not_mem_fmtFixed (p : ℕ) (q : ℚ) : '\n' ∉ fmtFixedChars p q := by
  intro hc
  rcases fmtFixedChars_mem p q '\n' hc with h | h
  · exact absurd h (by decide)
  · exact h.2 rfl

theorem decPlaces_fmtFixed (p : ℕ) (q : ℚ) : decPlaces (fmtFixed p q) = p := by
  have hdata : (fmtFixed p q).data = fmtFixedChars p q := rfl
  by_cases hp : p = 0
  · subst hp
    have hcont : (fmtFixedChars 0 q).contains '.' = false := by
      apply contains_dot_eq_false
      intro c hc
      simp only [fmtFixedChars, if_pos rfl] at hc
      rcases List.mem_append.mp hc with hc | hc
      · exact (fmtFixed_sign_mem q c hc).1
      · exact (natDigits_mem _ c hc).1
    simp only [decPlaces, hdata, hcont, Bool.false_eq_true, if_false]
  · have hp1 : 1 ≤ p := by omega
    have hchars : fmtFixedChars p q =
        (if q < 0 then ['-'] else ([] : List Char)) ++
          natDigits ((roundHalfEven (|q| * 10 ^ p)).toNat / 10 ^ p) ++
          '.' :: padLeftZeros
            (natDigits ((roundHalfEven (|q| * 10 ^ p)).toNat % 10 ^ p)) p := by
      simp [fmtFixedChars, if_neg hp]
    set sign := (if q < 0 then ['-'] else ([] : List Char))
    set A := natDigits ((roundHalfEven (|q| * 10 ^ p)).toNat / 10 ^ p)
    set frac := padLeftZeros
      (natDigits ((roundHalfEven (|q| * 10 ^ p)).toNat % 10 ^ p)) p
    have hfraclen : frac.length = p :=
      padLeftZeros_length _ _
        (natDigits_length_le _ p hp1
          (Nat.mod_lt _ (Nat.pos_pow_of_pos p (by norm_num))))
    have hfracmem : ∀ c ∈ frac, c ≠ '.' ∧ c ≠ '\n' :=
      padLeftZeros_mem _ _ (natDigits_mem _)
    have hcont : (sign ++ A ++ '.' :: frac).contains '.' = true := by
      have hmem : '.' ∈ sign ++ A ++ '.' :: frac := by simp
      rw [List.contains_iff_exists_mem_beq]
      exact ⟨'.', hmem, by simp⟩
    have hrev : (sign ++ A ++ '.' :: frac).reverse =
        frac.reverse ++ '.' :: (A.reverse ++ sign.reverse) := by
      simp
    have htw := takeWhile_until_dot frac.reverse (A.reverse ++ sign.reverse)
      (fun c hc => (hfracmem c (List.mem_reverse.mp hc)).1)
    simp only [decPlaces, hdata, hchars, hcont, if_pos rfl, hrev, htw,
      List.length_reverse, hfraclen, if_true]

theorem ceil_log10_least (t : ℕ) (ht : 1 ≤ t) :
    t ≤ 10 ^ ceil_log10 t ∧ ∀ j, t ≤ 10 ^ j → ceil_log10 t ≤ j := by
  unfold ceil_log10
  by_cases h : t ≤ 1
  · simp only [if_pos h, pow_zero]
    exact ⟨by omega, fun j _ => Nat.zero_le j⟩
  · simp only [if_neg h]
    have h2 : 2 ≤ t := by omega
    constructor
    · have := natDigits_lt (t - 1)
      omega
    · intro j hj
      by_contra hc
      have hge := natDigits_ge (t - 1) (by omega)
      have hle : j ≤ (natDigits (t - 1)).length - 1 := by omega
      have := Nat.pow_le_pow_right (n := 10) (by norm_num) hle
      omega

theorem quantity_precision_iff (step : ℚ) (h0 : 0 < step) (h1 : step < 1)
    (k : ℕ) : 1 ≤ 10 ^ k * step ↔ ⌈1 / step⌉.toNat ≤ 10 ^ k := by
  have hstep : (1:ℚ) < 1 / step := one_lt_one_div h0 h1
  have hc1 : (1:ℤ) ≤ ⌈1 / step⌉ := by
    have := Int.le_ceil (1 / step)
    exact_mod_cast le_trans (le_of_lt hstep) this
  constructor
  · intro h
    have hd : 1 / step ≤ (10:ℚ) ^ k := by
      rw [div_le_iff₀ h0]
      calc (1:ℚ) ≤ 10 ^ k * step := h
        _ = (10:ℚ) ^ k * step := by norm_num
    have : ⌈1 / step⌉ ≤ ((10 ^ k : ℕ) : ℤ) := by
      apply Int.ceil_le.mpr
      push_cast
      exact hd
    exact Int.toNat_le.mpr this
  · intro h
    have : ⌈1 / step⌉ ≤ ((10 ^ k : ℕ) : ℤ) := by
      omega
    have hd : 1 / step ≤ ((10 ^ k : ℕ) : ℚ) :=
      le_trans (Int.le_ceil _) (by exact_mod_cast this)
    rw [div_le_iff₀ h0] at hd
    push_cast at hd
    linarith

theorem quantity_precision_pos_spec (step : ℚ) (h0 : 0 < step) (h1 : step < 1) :
    1 ≤ 10 ^ quantity_precision step * step ∧
      ∀ j : ℕ, 1 ≤ 10 ^ j * step → quantity_precision step ≤ j := by
  have hn1 : ¬ 1 ≤ step := not_le.mpr h1
  have hn2 : ¬ step = 0 := ne_of_gt h0
  have hn3 : ¬ step < 0 := not_lt.mpr (le_of_lt h0)
  have hq : quantity_precision step = ceil_log10 ⌈1 / step⌉.toNat := by
    simp [quantity_precision, hn1, hn2, hn3]
  have ht : 1 ≤ ⌈1 / step⌉.toNat := by
    have hstep : (1:ℚ) < 1 / step := one_lt_one_div h0 h1
    have : (1:ℤ) ≤ ⌈1 / step⌉ := by
      have := Int.le_ceil (1 / step)
      exact_mod_cast le_trans (le_of_lt hstep) this
    omega
  obtain ⟨hle, hmin⟩ := ceil_log10_least _ ht
  rw [hq]
  constructor
  · exact (quantity_precision_iff step h0 h1 _).mpr hle
  · intro j hj
    exact hmin j ((quantity_precision_iff step h0 h1 j).mp hj)

theorem rustRound_ge_one {q : ℚ} (h : 1 ≤ q) : 1 ≤ rustRound q := by
  unfold rustRound
  rw [if_pos (le_trans zero_le_one h)]
  have : (1:ℚ) ≤ q + 1/2 := by linarith
  have := Int.le_floor.mpr (by exact_mod_cast this : ((1:ℤ):ℚ) ≤ q + 1/2)
  omega

theorem occursIn_self (x : String) : occursIn x x :=
  ⟨[], [], by simp⟩

theorem occursIn_append_left {x s : String} (t : String) (h : occursIn x s) :
    occursIn x (s ++ t) := by
  obtain ⟨a, b, hab⟩ := h
  exact ⟨a, b ++ t.data, by simp [String.data_append, hab]⟩

theorem occursIn_append_right {x t : String} (s : String) (h : occursIn x t) :
    occursIn x (s ++ t) := by
  obtain ⟨a, b, hab⟩ := h
  exact ⟨s.data ++ a, b, by simp [String.data_append, hab]⟩

theorem to_message_eq (s : MonitoringSnapshot) (symbol : String) :
    to_message s symbol =
      ("当前base token为 " ++ fmtFixed 4 s.amm_base_amount ++ " " ++ symbol ++
          "(" ++ fmtFixed 4 (s.amm_base_amount * s.base_price_usdt) ++ " USD)") ++
        "\n" ++
        ("当前base token对冲差异比为 " ++ fmtFixed 2 (s.base_delta_ratio * 100) ++
          "%") ++
        "\n" ++ ("目前系统总资产为：" ++ fmtFixed 4 s.total_value_usdt) ++ "\n" ++
        ("收益 " ++ fmtFixed 4 s.amm_collectable_value_usdt ++ " = " ++
          fmtFixed 4 s.amm_collectable_base ++ " " ++ symbol ++ " (" ++
          fmtFixed 4 (s.amm_collectable_base * s.base_price_usdt) ++ " USD) + " ++
          fmtFixed 4 s.amm_collectable_usdt ++ " USD") := rfl

theorem count_newline_fmtFixed (p : ℕ) (q : ℚ) :
    (fmtFixed p q).data.count '\n' = 0 :=
  List.count_eq_zero.mpr (newline_not_mem_fmtFixed p q)

/-- C1: for every strategy configuration and inputs, execute places no
order and returns Ok unless base_delta_ratio strictly exceeds the threshold
n and the absolute delta strictly exceeds the threshold m; equality on
either side, or any ratio at most n (including negative ratios), yields no
action regardless of the delta magnitude. -/
theorem execute_no_order_unless_strict_trigger
    (s : LPHStrategy) (ratio delta : ℚ) (oF cF : Bool)
    (h : ¬ (s.base_delta_ratio_threshold < ratio ∧
      s.base_delta_threshold < |delta|)) :
    execute s ratio delta oF cF = (s, [], ExecOutcome.ok) := by
  have h' : ratio ≤ s.base_delta_ratio_threshold ∨
      |delta| ≤ s.base_delta_threshold := by
    rcases not_and_or.mp h with h | h
    · exact Or.inl (not_lt.mp h)
    · exact Or.inr (not_lt.mp h)
  simp only [execute]
  rw [if_pos h']

/-- C1 witness: with thresholds n = 1 and m = 1/10, a ratio equal to n does
not trigger even for a huge delta. -/
theorem execute_no_order_witness :
    execute ⟨9, "S", 1, 2, 1, 1/10⟩ 1 1000 false false =
      (⟨9, "S", 1, 2, 1, 1/10⟩, [], ExecOutcome.ok) :=
  execute_no_order_unless_strict_trigger ⟨9, "S", 1, 2, 1, 1/10⟩ 1 1000
    false false (by norm_num)

/-- C10: when the trigger condition fails or delta is zero, execute returns
Ok with no order calls; moreover every call leaves the strategy state
unchanged and issues at most one order request. -/
theorem execute_frame (s : LPHStrategy) (ratio delta : ℚ) (oF cF : Bool) :
    ((ratio ≤ s.base_delta_ratio_threshold ∨
        |delta| ≤ s.base_delta_threshold ∨ delta = 0) →
      execute s ratio delta oF cF = (s, [], ExecOutcome.ok)) ∧
    (execute s ratio delta oF cF).1 = s ∧
    (execute s ratio delta oF cF).2.1.length ≤ 1 := by
  refine ⟨?_, ?_, ?_⟩
  · intro h
    simp only [execute]
    by_cases hg : ratio ≤ s.base_delta_ratio_threshold ∨
        |delta| ≤ s.base_delta_threshold
    · rw [if_pos hg]
    · have hz : delta = 0 := by tauto
      rw [if_neg hg, if_pos hz]
  · simp only [execute]
    split
    · rfl
    split
    · rfl
    split <;> rfl
  · simp only [execute]
    split
    · simp
    split
    · simp
    split <;> simp

/-- C10 witness: a concrete non-triggering call returns Ok with no calls,
an unchanged state, and at most one order request. -/
theorem execute_frame_witness :
    execute ⟨9, "S", 1, 2, 1, 1/10⟩ 2 0 false false =
      (⟨9, "S", 1, 2, 1, 1/10⟩, [], ExecOutcome.ok) :=
  (execute_frame ⟨9, "S", 1, 2, 1, 1/10⟩ 2 0 false false).1
    (Or.inr (Or.inl (by norm_num)))

/-- C5: when the trigger fires, a positive delta emits exactly one
open_sell call and a negative delta emits exactly one close_sell call,
never both; the request built by close_sell is reduce only while the one
built by open_sell is not. -/
theorem execute_direction_on_trigger
    (s : LPHStrategy) (ratio delta : ℚ) (oF cF : Bool)
    (h : s.base_delta_ratio_threshold < ratio ∧
      s.base_delta_threshold < |delta|) :
    (0 < delta →
      (execute s ratio delta oF cF).2.1 =
        [OrderCall.openSell s.symbol
          (format_quantity (round_to_step |delta| s.base_delta_threshold)
            s.base_delta_threshold)]) ∧
    (delta < 0 →
      (execute s ratio delta oF cF).2.1 =
        [OrderCall.closeSell s.symbol
          (format_quantity (round_to_step |delta| s.base_delta_threshold)
            s.base_delta_threshold)]) ∧
    (execute s ratio delta oF cF).2.1.length ≤ 1 ∧
    (∀ (ob : Orderbook) (amount : String) (req : PlaceOrderRequest),
      close_sell_request ob amount = Except.ok req → req.reduce_only = true) ∧
    (∀ (ob : Orderbook) (amount : String) (req : PlaceOrderRequest),
      open_sell_request ob amount = Except.ok req → req.reduce_only = false) := by
  have hg : ¬ (ratio ≤ s.base_delta_ratio_threshold ∨
      |delta| ≤ s.base_delta_threshold) := by
    rcases h with ⟨h1, h2⟩
    push_neg
    exact ⟨h1, h2⟩
  refine ⟨?_, ?_, ?_, ?_, ?_⟩
  · intro hpos
    simp only [execute]
    rw [if_neg hg, if_neg (ne_of_gt hpos), if_pos hpos]
  · intro hneg
    simp only [execute]
    rw [if_neg hg, if_neg (ne_of_lt hneg), if_neg (not_lt.mpr (le_of_lt hneg))]
  · simp only [execute]
    split
    · simp
    split
    · simp
    split <;> simp
  · intro ob amount req hreq
    cases hb : ob.bids.head? with
    | none => rw [close_sell_request, hb] at hreq; exact absurd hreq (by simp)
    | some bid =>
        rw [close_sell_request, hb] at hreq
        cases hreq
        rfl
  · intro ob amount req hreq
    cases ha : ob.asks.head? with
    | none => rw [open_sell_request, ha] at hreq; exact absurd hreq (by simp)
    | some ask =>
        rw [open_sell_request, ha] at hreq
        cases hreq
        rfl

/-- C5 witness: with thresholds n = 1/2 and m = 1/10 and a triggering pair
ratio 1, delta 7, the emitted call is a single open_sell. -/
theorem execute_direction_witness :
    (execute ⟨9, "S", 1, 2, 1/2, 1/10⟩ 1 7 false false).2.1 =
      [OrderCall.openSell "S" (format_quantity (round_to_step |(7:ℚ)| (1/10)) (1/10))] :=
  (execute_direction_on_trigger ⟨9, "S", 1, 2, 1/2, 1/10⟩ 1 7 false false
      ⟨by norm_num, by norm_num⟩).1 (by norm_num)

/-- C3: round_to_step with step zero (or any non-positive step) returns the
value unchanged; with a positive step it returns an integer multiple of the
step, positive whenever the triggering bound holds, computed from the
absolute delta so the sign of delta is irrelevant; rounding is half away
from zero. -/
theorem round_to_step_spec (delta m : ℚ) :
    round_to_step delta 0 = delta ∧
    (m ≤ 0 → round_to_step delta m = delta) ∧
    (0 < m → ∃ k : ℤ, round_to_step |delta| m = (k : ℚ) * m) ∧
    (0 < m → m < |delta| → 0 < round_to_step |delta| m) ∧
    round_to_step |delta| m = round_to_step |(-delta)| m ∧
    round_to_step (5/2) 1 = 3 ∧
    round_to_step (-(5/2) : ℚ) 1 = -3 := by
  refine ⟨?_, ?_, ?_, ?_, ?_, ?_, ?_⟩
  · simp [round_to_step]
  · intro hm
    simp [round_to_step, hm]
  · intro hm
    rw [round_to_step, if_neg (not_le.mpr hm)]
    exact ⟨rustRound (|delta| / m), rfl⟩
  · intro hm hd
    rw [round_to_step, if_neg (not_le.mpr hm)]
    have h1 : (1:ℚ) ≤ |delta| / m := le_of_lt ((one_lt_div hm).mpr hd)
    have h2 : (1:ℤ) ≤ rustRound (|delta| / m) := rustRound_ge_one h1
    have h3 : (1:ℚ) ≤ (rustRound (|delta| / m) : ℚ) := by exact_mod_cast h2
    calc (0:ℚ) < 1 * m := by linarith
      _ ≤ (rustRound (|delta| / m) : ℚ) * m :=
        mul_le_mul_of_nonneg_right h3 (le_of_lt hm)
  · rw [abs_neg]
  · rw [round_to_step, if_neg (by norm_num)]
    norm_num [rustRound]
  · rw [round_to_step, if_neg (by norm_num)]
    norm_num [rustRound]

/-- C3 witness: with step 1/10 and delta 7 the rounded quantity is
positive. -/
theorem round_to_step_witness :
    0 < round_to_step |(7:ℚ)| (1/10) :=
  (round_to_step_spec 7 (1/10)).2.2.2.1 (by norm_num) (by norm_num)

/-- C7: the formatted order quantity carries a decimal precision derived
from the step m: zero decimal places when m is at least one, and otherwise
the least k such that ten to the k times m reaches one, which is the exact
ceiling of log10 of the reciprocal of m; in particular one gives zero
places, one tenth gives one, one hundredth gives two. -/
theorem format_quantity_precision_spec (q step : ℚ) :
    (1 ≤ step → decPlaces (format_quantity q step) = 0) ∧
    (0 < step → step < 1 →
      decPlaces (format_quantity q step) = quantity_precision step ∧
      1 ≤ 10 ^ quantity_precision step * step ∧
      ∀ j : ℕ, 1 ≤ 10 ^ j * step → quantity_precision step ≤ j) ∧
    quantity_precision 1 = 0 ∧
    quantity_precision (1/10) = 1 ∧
    quantity_precision (1/100) = 2 := by
  have hq1 : quantity_precision (1/10) = 1 := by
    obtain ⟨ha, hb⟩ :=
      quantity_precision_pos_spec (1/10) (by norm_num) (by norm_num)
    have h1 : quantity_precision (1/10) ≤ 1 := hb 1 (by norm_num)
    rcases Nat.eq_zero_or_pos (quantity_precision (1/10)) with h0 | h0
    · rw [h0] at ha
      norm_num at ha
    · omega
  have hq2 : quantity_precision (1/100) = 2 := by
    obtain ⟨ha, hb⟩ :=
      quantity_precision_pos_spec (1/100) (by norm_num) (by norm_num)
    have h1 : quantity_precision (1/100) ≤ 2 := hb 2 (by norm_num)
    set k := quantity_precision (1/100) with hk
    interval_cases k
    · norm_num at ha
    · norm_num at ha
    · rfl
  refine ⟨?_, ?_, ?_, hq1, hq2⟩
  · intro h
    have : quantity_precision step = 0 := by simp [quantity_precision, h]
    rw [format_quantity, this]
    exact decPlaces_fmtFixed 0 q
  · intro h0 h1
    obtain ⟨ha, hb⟩ := quantity_precision_pos_spec step h0 h1
    exact ⟨decPlaces_fmtFixed _ q, ha, hb⟩
  · simp [quantity_precision]

/-- C7 witness: formatting with step one tenth yields exactly the derived
precision of one decimal place. -/
theorem format_quantity_precision_witness :
    decPlaces (format_quantity (73/10) (1/10)) = quantity_precision (1/10) :=
  ((format_quantity_precision_spec (73/10) (1/10)).2.1 (by norm_num)
    (by norm_num)).1

/-- C8: to_message is a function of the snapshot and label producing a four
line report (three newline separators, none contributed by the rendered
figures) containing the base holding and its USD value at four decimal
places, the delta ratio at two decimal places followed by a percent sign,
the total system value, and the decomposed collectable yield figures; any
rational input is rendered, negative values with a leading minus sign. -/
theorem to_message_report (s : MonitoringSnapshot) (label : String) :
    ('\n' ∉ label.data → (to_message s label).data.count '\n' = 3) ∧
    occursIn (fmtFixed 4 s.amm_base_amount) (to_message s label) ∧
    occursIn (fmtFixed 4 (s.amm_base_amount * s.base_price_usdt))
      (to_message s label) ∧
    occursIn (fmtFixed 2 (s.base_delta_ratio * 100) ++ "%")
      (to_message s label) ∧
    occursIn (fmtFixed 4 s.total_value_usdt) (to_message s label) ∧
    occursIn (fmtFixed 4 s.amm_collectable_value_usdt) (to_message s label) ∧
    occursIn (fmtFixed 4 s.amm_collectable_base) (to_message s label) ∧
    occursIn (fmtFixed 4 (s.amm_collectable_base * s.base_price_usdt))
      (to_message s label) ∧
    occursIn (fmtFixed 4 s.amm_collectable_usdt) (to_message s label) ∧
    (∀ x : ℚ, decPlaces (fmtFixed 4 x) = 4) ∧
    (∀ x : ℚ, decPlaces (fmtFixed 2 x) = 2) ∧
    (∀ x : ℚ, x < 0 → (fmtFixed 4 x).data.head? = some '-') := by
  refine ⟨?_, ?_, ?_, ?_, ?_, ?_, ?_, ?_, ?_, ?_, ?_, ?_⟩
  · intro hlabel
    have hl : label.data.count '\n' = 0 := List.count_eq_zero.mpr hlabel
    rw [to_message_eq]
    simp only [String.data_append, List.count_append, count_newline_fmtFixed, hl]
    decide
  · rw [to_message_eq]
    exact occursIn_append_left _ (occursIn_append_left _ (occursIn_append_left _
      (occursIn_append_left _ (occursIn_append_left _ (occursIn_append_left _
        (occursIn_append_left _ (occursIn_append_left _ (occursIn_append_left _
          (occursIn_append_left _ (occursIn_append_left _
            (occursIn_append_right _ (occursIn_self _))))))))))))
  · rw [to_message_eq]
    exact occursIn_append_left _ (occursIn_append_left _ (occursIn_append_left _
      (occursIn_append_left _ (occursIn_append_left _ (occursIn_append_left _
        (occursIn_append_left _ (occursIn_append_right _ (occursIn_self _))))))))
  · rw [to_message_eq]
    refine occursIn_append_left _ (occursIn_append_left _ (occursIn_append_left _
      (occursIn_append_left _ (occursIn_append_right _ ?_))))
    exact ⟨"当前base token对冲差异比为 ".data, [], by simp [String.data_append]⟩
  · rw [to_message_eq]
    exact occursIn_append_left _ (occursIn_append_left _
      (occursIn_append_right _ (occursIn_append_right _ (occursIn_self _))))
  · rw [to_message_eq]
    exact occursIn_append_right _ (occursIn_append_left _ (occursIn_append_left _
      (occursIn_append_left _ (occursIn_append_left _ (occursIn_append_left _
        (occursIn_append_left _ (occursIn_append_left _ (occursIn_append_left _
          (occursIn_append_left _
            (occursIn_append_right _ (occursIn_self _)))))))))))
  · rw [to_message_eq]
    exact occursIn_append_right _ (occursIn_append_left _ (occursIn_append_left _
      (occursIn_append_left _ (occursIn_append_left _ (occursIn_append_left _
        (occursIn_append_left _ (occursIn_append_left _
          (occursIn_append_right _ (occursIn_self _)))))))))
  · rw [to_message_eq]
    exact occursIn_append_right _ (occursIn_append_left _ (occursIn_append_left _
      (occursIn_append_left _ (occursIn_append_right _ (occursIn_self _)))))
  · rw [to_message_eq]
    exact occursIn_append_right _ (occursIn_append_left _
      (occursIn_append_right _ (occursIn_self _)))
  · intro x
    exact decPlaces_fmtFixed 4 x
  · intro x
    exact decPlaces_fmtFixed 2 x
  · intro x hx
    have : fmtFixedChars 4 x = '-' ::
        (natDigits ((roundHalfEven (|x| * 10 ^ 4)).toNat / 10 ^ 4) ++
          '.' :: padLeftZeros
            (natDigits ((roundHalfEven (|x| * 10 ^ 4)).toNat % 10 ^ 4)) 4) := by
      simp [fmtFixedChars, if_pos hx]
    have hdata : (fmtFixed 4 x).data = fmtFixedChars 4 x := rfl
    rw [hdata, this]
    rfl

/-- C8 witness: a negative figure is rendered with a leading minus sign. -/
theorem to_message_report_witness :
    (fmtFixed 4 (-1 : ℚ)).data.head? = some '-' :=
  (to_message_report ⟨0, "S", 0, 0, 0, 0, 0, 0, 0, 0, 0, 0, 0, 0, 0⟩
    "S").2.2.2.2.2.2.2.2.2.2.2 (-1) (by norm_num)

/-- Whether a status result is a successfully produced snapshot. -/
def isOkResult : Option (Except String MonitoringSnapshot) → Bool
  | some (Except.ok _) => true
  | _ => false

theorem status_cex_ok_inversion
    (s : LPHStrategy) (bn : ℕ) (cex : List Position)
    (parse : String → Option ℚ) (ab au acb acu : ℚ)
    (snap : MonitoringSnapshot)
    (h : status_cex s bn cex parse ab au acb acu = Except.ok snap) :
    ∃ bp fp up mp,
      cex.find? (fun p => p.symbol == s.symbol) = some bp ∧
      parse bp.position_amt = some fp ∧
      parse bp.unrealized_pnl = some up ∧
      parse bp.mark_price = some mp ∧
      snap.amm_base_amount = ab ∧
      snap.futures_position = fp ∧
      snap.unrealized_pnl = up ∧
      snap.base_price_usdt = mp ∧
      snap.base_delta_ratio =
        base_delta_ratio_of snap.amm_base_amount snap.futures_position ∧
      snap.base_delta = snap.amm_base_amount + snap.futures_position ∧
      snap.block_number = bn ∧
      snap.symbol = s.symbol ∧
      snap.futures_timestamp = bp.update_time := by
  unfold status_cex at h
  split at h
  · exact absurd h (by simp)
  rename_i bp hbp
  split at h
  · exact absurd h (by simp)
  rename_i fp hfp
  split at h
  · exact absurd h (by simp)
  rename_i up hup
  split at h
  · exact absurd h (by simp)
  rename_i mp hmp
  simp only [Except.ok.injEq] at h
  subst h
  exact ⟨bp, fp, up, mp, hbp, hfp, hup, hmp,
    rfl, rfl, rfl, rfl, rfl, rfl, rfl, rfl, rfl⟩

theorem status_pure_ok_inversion
    (s : LPHStrategy) (positions : List PositionData) (bn : ℕ)
    (cex : List Position) (parse : String → Option ℚ)
    (snap : MonitoringSnapshot)
    (h : status_pure s positions bn cex parse = some (Except.ok snap)) :
    ∃ pos bp fp up mp,
      find_position positions s.base_token_address s.usdt_token_address =
        some pos ∧
      cex.find? (fun p => p.symbol == s.symbol) = some bp ∧
      parse bp.position_amt = some fp ∧
      parse bp.unrealized_pnl = some up ∧
      parse bp.mark_price = some mp ∧
      snap.futures_position = fp ∧
      snap.unrealized_pnl = up ∧
      snap.base_price_usdt = mp ∧
      snap.base_delta_ratio =
        base_delta_ratio_of snap.amm_base_amount snap.futures_position ∧
      snap.base_delta = snap.amm_base_amount + snap.futures_position ∧
      snap.block_number = bn ∧
      snap.symbol = s.symbol ∧
      snap.futures_timestamp = bp.update_time := by
  unfold status_pure at h
  split at h
  · exact absurd h (by simp)
  rename_i position_data hfind
  have key : ∀ (w0 w1 c0 c1 : ℕ),
      status_amm s bn cex parse w0 w1 c0 c1 = some (Except.ok snap) →
      ∃ bp fp up mp,
        cex.find? (fun p => p.symbol == s.symbol) = some bp ∧
        parse bp.position_amt = some fp ∧
        parse bp.unrealized_pnl = some up ∧
        parse bp.mark_price = some mp ∧
        snap.futures_position = fp ∧
        snap.unrealized_pnl = up ∧
        snap.base_price_usdt = mp ∧
        snap.base_delta_ratio =
          base_delta_ratio_of snap.amm_base_amount snap.futures_position ∧
        snap.base_delta = snap.amm_base_amount + snap.futures_position ∧
        snap.block_number = bn ∧
        snap.symbol = s.symbol ∧
        snap.futures_timestamp = bp.update_time := by
    intro w0 w1 c0 c1 hamm
    unfold status_amm at hamm
    split at hamm
    · simp only [Option.some.injEq] at hamm
      obtain ⟨bp, fp, up, mp, hbp, hfp, hup, hmp, _, hsnap⟩ :=
        status_cex_ok_inversion _ _ _ _ _ _ _ _ snap hamm
      exact ⟨bp, fp, up, mp, hbp, hfp, hup, hmp, hsnap⟩
    · exact absurd hamm (by simp)
  split at h
  · obtain ⟨bp, fp, up, mp, hrest⟩ := key _ _ _ _ h
    exact ⟨position_data, bp, fp, up, mp, hfind, hrest⟩
  · obtain ⟨bp, fp, up, mp, hrest⟩ := key _ _ _ _ h
    exact ⟨position_data, bp, fp, up, mp, hfind, hrest⟩

theorem u256_to_f64_eq_of_lt (value decimals : ℕ) (h : value < 2 ^ 128) :
    u256_to_f64 value decimals = some ((value : ℚ) / 10 ^ decimals) := by
  unfold u256_to_f64
  rw [if_pos h]
  have hnat : (10 ^ decimals) * (value / 10 ^ decimals) +
      value % 10 ^ decimals = value := Nat.div_add_mod value (10 ^ decimals)
  have hval := congrArg (fun n : ℕ => (n : ℚ)) hnat
  push_cast at hval
  have hd : ((10:ℚ) ^ decimals) ≠ 0 := by positivity
  field_simp
  linarith [hval]

/-- C2 (amended): snapshot building fails with the NotFound style error
exactly when no stored position matches the configured pair in either
token order; when at least one matches, the first match in table iteration
order is selected, so with several matches the builder does not fail but
uses the first. -/
theorem find_position_selection
    (positions : List PositionData) (s : LPHStrategy) (bn : ℕ)
    (cex : List Position) (parse : String → Option ℚ) :
    (find_position positions s.base_token_address s.usdt_token_address =
        none ↔
      ∀ pos ∈ positions,
        ¬ ((pos.token0 = s.base_token_address ∧
            pos.token1 = s.usdt_token_address) ∨
          (pos.token0 = s.usdt_token_address ∧
            pos.token1 = s.base_token_address))) ∧
    (find_position positions s.base_token_address s.usdt_token_address =
        none →
      status_pure s positions bn cex parse =
        some (Except.error "No matching Uniswap position found")) ∧
    (∀ pos,
      find_position positions s.base_token_address s.usdt_token_address =
        some pos →
      pos ∈ positions ∧
      ((pos.token0 = s.base_token_address ∧
          pos.token1 = s.usdt_token_address) ∨
        (pos.token0 = s.usdt_token_address ∧
          pos.token1 = s.base_token_address))) ∧
    (∀ (pos : PositionData) (rest : List PositionData),
      ((pos.token0 = s.base_token_address ∧
          pos.token1 = s.usdt_token_address) ∨
        (pos.token0 = s.usdt_token_address ∧
          pos.token1 = s.base_token_address)) →
      find_position (pos :: rest) s.base_token_address s.usdt_token_address =
        some pos) := by
  refine ⟨?_, ?_, ?_, ?_⟩
  · rw [find_position, List.find?_eq_none]
    constructor
    · intro h pos hmem hmatch
      have hp := h pos hmem
      rcases hmatch with ⟨h1, h2⟩ | ⟨h1, h2⟩ <;> simp [h1, h2] at hp
    · intro h pos hmem
      have hp := h pos hmem
      simp only [Bool.or_eq_true, Bool.and_eq_true, beq_iff_eq]
      tauto
  · intro h
    simp [status_pure, h]
  · intro pos hpos
    rw [find_position] at hpos
    refine ⟨List.mem_of_find?_eq_some hpos, ?_⟩
    have hp := List.find?_some hpos
    simp only [Bool.or_eq_true, Bool.and_eq_true, beq_iff_eq] at hp
    exact hp
  · intro pos rest hmatch
    rw [find_position]
    apply List.find?_cons_of_pos
    rcases hmatch with ⟨h1, h2⟩ | ⟨h1, h2⟩ <;> simp [h1, h2]

/-- C2 witness: with an empty position table the builder fails with the
NotFound style error. -/
theorem find_position_selection_witness :
    status_pure ⟨9, "S", 1, 2, 1/2, 1/10⟩ [] 1 [] (fun _ => none) =
      some (Except.error "No matching Uniswap position found") :=
  (find_position_selection [] ⟨9, "S", 1, 2, 1/2, 1/10⟩ 1 []
    (fun _ => none)).2.1 rfl

/-- C2 counterexample: two distinct stored positions both match the
configured pair, one in each token order, yet status picks the first and
produces a snapshot instead of failing on the ambiguity. -/
theorem status_pure_two_matches_counterexample :
    isOkResult (status_pure ⟨9, "S", 1, 2, 1/2, 1/10⟩
        [⟨1, 1, 2, 0, 0, 0, 0, 0⟩, ⟨2, 2, 1, 0, 0, 0, 0, 0⟩] 1
        [⟨"S", "0", "0", "0", 0⟩] (fun _ => some (0:ℚ))) = true ∧
    find_position [⟨1, 1, 2, 0, 0, 0, 0, 0⟩, ⟨2, 2, 1, 0, 0, 0, 0, 0⟩] 1 2 =
      some ⟨1, 1, 2, 0, 0, 0, 0, 0⟩ ∧
    ((⟨2, 2, 1, 0, 0, 0, 0, 0⟩ : PositionData).token0 = 2 ∧
      (⟨2, 2, 1, 0, 0, 0, 0, 0⟩ : PositionData).token1 = 1) ∧
    (⟨1, 1, 2, 0, 0, 0, 0, 0⟩ : PositionData) ≠ ⟨2, 2, 1, 0, 0, 0, 0, 0⟩ := by
  refine ⟨rfl, rfl, ⟨rfl, rfl⟩, ?_⟩
  decide

/-- C4: the ratio denominator is never zero, floored at epsilon; the
computation is the sum of the two legs divided by the floored maximum of
their magnitudes, with the stated sample values; every snapshot produced by
status carries exactly this ratio of its own fields. -/
theorem base_delta_ratio_spec
    (a p : ℚ) (s : LPHStrategy) (positions : List PositionData) (bn : ℕ)
    (cex : List Position) (parse : String → Option ℚ) :
    0 < base_reference_of a p ∧
    base_delta_ratio_of a p = (a + p) / max (max |a| |p|) EPSILON ∧
    base_delta_ratio_of 10 (-10) = 0 ∧
    base_delta_ratio_of 10 0 = 1 ∧
    base_delta_ratio_of 0 0 = 0 ∧
    (∀ snap : MonitoringSnapshot,
      status_pure s positions bn cex parse = some (Except.ok snap) →
      snap.base_delta_ratio =
        (snap.amm_base_amount + snap.futures_position) /
          max (max |snap.amm_base_amount| |snap.futures_position|) EPSILON) := by
  refine ⟨?_, rfl, ?_, ?_, ?_, ?_⟩
  · exact lt_of_lt_of_le (by norm_num [EPSILON]) (le_max_right _ _)
  · have hz : (10:ℚ) + -10 = 0 := by norm_num
    rw [base_delta_ratio_of, hz, zero_div]
  · rw [base_delta_ratio_of, base_reference_of]
    rw [abs_of_nonneg (by norm_num : (0:ℚ) ≤ 10), abs_zero]
    rw [max_eq_left (by norm_num : (0:ℚ) ≤ 10)]
    rw [max_eq_left (by norm_num [EPSILON] : EPSILON ≤ (10:ℚ))]
    norm_num
  · rw [base_delta_ratio_of]
    norm_num
  · intro snap h
    obtain ⟨pos, bp, fp, up, mp, _, _, _, _, _, _, _, _, hratio, _⟩ :=
      status_pure_ok_inversion s positions bn cex parse snap h
    rw [hratio]
    rfl

/-- C4 witness: a concrete successful status run produces a snapshot whose
ratio field satisfies the formula. -/
theorem base_delta_ratio_witness :
    (⟨1, "S", 0, 0, 0, 0, 0, 0, 0, 0, 0, 0, 0, 0, 0⟩ :
        MonitoringSnapshot).base_delta_ratio =
      (((⟨1, "S", 0, 0, 0, 0, 0, 0, 0, 0, 0, 0, 0, 0, 0⟩ :
          MonitoringSnapshot).amm_base_amount +
        (⟨1, "S", 0, 0, 0, 0, 0, 0, 0, 0, 0, 0, 0, 0, 0⟩ :
          MonitoringSnapshot).futures_position) /
        max (max |(⟨1, "S", 0, 0, 0, 0, 0, 0, 0, 0, 0, 0, 0, 0, 0⟩ :
            MonitoringSnapshot).amm_base_amount|
          |(⟨1, "S", 0, 0, 0, 0, 0, 0, 0, 0, 0, 0, 0, 0, 0⟩ :
            MonitoringSnapshot).futures_position|) EPSILON) :=
  (base_delta_ratio_spec 0 0 ⟨9, "S", 1, 2, 1/2, 1/10⟩
    [⟨1, 1, 2, 0, 0, 0, 0, 0⟩] 1 [⟨"S", "0", "0", "0", 0⟩]
    (fun _ => some (0:ℚ))).2.2.2.2.2 _
    (by
      simp only [status_pure, status_amm, status_cex, find_position,
        u256_to_f64, UNISWAP_TOKEN_DECIMALS, List.find?]
      norm_num [base_delta_ratio_of, base_reference_of])

/-- C6: when the CEX record matching the symbol has any of its three
numeric string fields unparsable, status produces no snapshot; and any
snapshot that is produced carries exactly the parsed values of those three
fields, so a parse failure is never replaced by zero or skipped. -/
theorem status_parse_failure
    (s : LPHStrategy) (positions : List PositionData) (bn : ℕ)
    (cex : List Position) (parse : String → Option ℚ) (bp : Position)
    (hfind : cex.find? (fun p => p.symbol == s.symbol) = some bp) :
    ((parse bp.position_amt = none ∨ parse bp.unrealized_pnl = none ∨
        parse bp.mark_price = none) →
      isOkResult (status_pure s positions bn cex parse) = false) ∧
    (∀ snap : MonitoringSnapshot,
      status_pure s positions bn cex parse = some (Except.ok snap) →
      parse bp.position_amt = some snap.futures_position ∧
      parse bp.unrealized_pnl = some snap.unrealized_pnl ∧
      parse bp.mark_price = some snap.base_price_usdt) := by
  have main : ∀ snap : MonitoringSnapshot,
      status_pure s positions bn cex parse = some (Except.ok snap) →
      parse bp.position_amt = some snap.futures_position ∧
      parse bp.unrealized_pnl = some snap.unrealized_pnl ∧
      parse bp.mark_price = some snap.base_price_usdt := by
    intro snap h
    obtain ⟨pos, bp', fp, up, mp, _, hbp', hp1, hp2, hp3, hfu, hupnl, hpr, _⟩ :=
      status_pure_ok_inversion s positions bn cex parse snap h
    rw [hfind] at hbp'
    obtain rfl : bp = bp' := Option.some.inj hbp'
    refine ⟨?_, ?_, ?_⟩
    · rw [hfu]; exact hp1
    · rw [hupnl]; exact hp2
    · rw [hpr]; exact hp3
  refine ⟨?_, main⟩
  intro hfail
  cases hv : status_pure s positions bn cex parse with
  | none => rfl
  | some r =>
    cases r with
    | error e => rfl
    | ok snap =>
      exfalso
      obtain ⟨h1, h2, h3⟩ := main snap hv
      rcases hfail with hf | hf | hf
      · rw [hf] at h1; exact absurd h1 (by simp)
      · rw [hf] at h2; exact absurd h2 (by simp)
      · rw [hf] at h3; exact absurd h3 (by simp)

/-- C6 witness: with a parser failing on every field, a cycle whose CEX
record matches the symbol yields no snapshot. -/
theorem status_parse_failure_witness :
    isOkResult (status_pure ⟨9, "S", 1, 2, 1/2, 1/10⟩
      [⟨1, 1, 2, 0, 0, 0, 0, 0⟩] 1 [⟨"S", "x", "x", "x", 0⟩]
      (fun _ => none)) = false :=
  (status_parse_failure ⟨9, "S", 1, 2, 1/2, 1/10⟩ [⟨1, 1, 2, 0, 0, 0, 0, 0⟩]
    1 [⟨"S", "x", "x", "x", 0⟩] (fun _ => none) ⟨"S", "x", "x", "x", 0⟩
    rfl).1 (Or.inl rfl)

/-- C9: u256_to_f64 is defined exactly when the value fits in 128 bits
(the ruint conversion panics above that, despite the comment claiming
truncation), in which case it returns the exact non-negative quotient by
ten to the decimals; and snapshot building avoids the panic whenever the
four raw amounts of the matched position fit in 128 bits. -/
theorem u256_to_f64_spec
    (value decimals : ℕ) (s : LPHStrategy) (positions : List PositionData)
    (bn : ℕ) (cex : List Position) (parse : String → Option ℚ)
    (pos : PositionData) :
    ((u256_to_f64 value decimals).isSome ↔ value < 2 ^ 128) ∧
    (value < 2 ^ 128 →
      u256_to_f64 value decimals = some ((value : ℚ) / 10 ^ decimals) ∧
      0 ≤ ((value : ℚ) / 10 ^ decimals)) ∧
    (find_position positions s.base_token_address s.usdt_token_address =
        some pos →
      pos.withdrawable_amount0 < 2 ^ 128 →
      pos.withdrawable_amount1 < 2 ^ 128 →
      pos.collectable_amount0 < 2 ^ 128 →
      pos.collectable_amount1 < 2 ^ 128 →
      status_pure s positions bn cex parse ≠ none) := by
  have hs : ∀ (w0 w1 c0 c1 : ℕ), w0 < 2 ^ 128 → w1 < 2 ^ 128 →
      c0 < 2 ^ 128 → c1 < 2 ^ 128 →
      status_amm s bn cex parse w0 w1 c0 c1 ≠ none := by
    intro w0 w1 c0 c1 hw0 hw1 hc0 hc1 hn
    unfold status_amm at hn
    rw [u256_to_f64_eq_of_lt w0 _ hw0, u256_to_f64_eq_of_lt w1 _ hw1,
      u256_to_f64_eq_of_lt c0 _ hc0, u256_to_f64_eq_of_lt c1 _ hc1] at hn
    simp at hn
  refine ⟨?_, ?_, ?_⟩
  · unfold u256_to_f64
    by_cases h : value < 2 ^ 128 <;> simp [h]
  · intro h
    refine ⟨u256_to_f64_eq_of_lt value decimals h, by positivity⟩
  · intro hfind h0 h1 h2 h3 hnone
    unfold status_pure at hnone
    split at hnone
    · exact absurd hnone (by simp)
    · rename_i pd hf
      rw [hfind] at hf
      obtain rfl : pos = pd := Option.some.inj hf
      split at hnone
      · exact hs _ _ _ _ h0 h1 h2 h3 hnone
      · exact hs _ _ _ _ h1 h0 h3 h2 hnone

/-- C9 witness: the value five with one decimal converts to one half. -/
theorem u256_to_f64_witness :
    u256_to_f64 5 1 = some ((5 : ℚ) / 10 ^ 1) :=
  ((u256_to_f64_spec 5 1 ⟨9, "S", 1, 2, 1/2, 1/10⟩ [] 1 [] (fun _ => none)
    ⟨1, 1, 2, 0, 0, 0, 0, 0⟩).2.1 (by norm_num)).1

end Urban
